import Mathlib

/-!
Verification of the lazyverdi command/panel core against its source.

The Python sources are shallowly embedded: strings are lists of characters
(`PyStr`), Python's `str.strip`/`str.splitlines`/`re` idioms become explicit
recursive functions, and the stateful pieces (panel tab cache, the execution
gate, the runner's event order) become explicit state-passing functions.

Whitespace is restricted to the four ASCII characters relevant to the
line-based parsing in the source (space, tab, CR, LF); the source's Python
runtime additionally treats `\v`, `\f` and Unicode whitespace the same way,
which none of the parsing decisions here depend on.
-/

namespace LazyVerdi

/-- Python strings, modelled as lists of characters. -/
abbrev PyStr := List Char

/-- Whitespace test used by `str.strip` / the regex class `\s` in
`lazyverdi/commands/parsers.py` (restricted to space, tab, CR, LF). -/
def wsChar (c : Char) : Bool :=
  c = ' ' || c = '\t' || c = '\n' || c = '\r'

/-- Python `str.lstrip()`: drop leading whitespace. -/
def pyLstrip (s : PyStr) : PyStr := s.dropWhile wsChar

/-- Python `str.rstrip()`: drop trailing whitespace. -/
def pyRstrip : PyStr → PyStr
  | [] => []
  | c :: rest =>
    let r := pyRstrip rest
    if r = [] then (if wsChar c then [] else [c]) else c :: r

/-- Python `str.strip()`: drop whitespace at both ends. -/
def pyStrip (s : PyStr) : PyStr := pyRstrip (pyLstrip s)

/-- Prepend a character to the first line of a line list (helper for
`pySplitlines`). -/
def consCar (c : Char) : List PyStr → List PyStr
  | [] => [[c]]
  | l :: ls => (c :: l) :: ls

/-- Python `str.splitlines()`: split at LF, CR and CRLF, not keeping a final
empty line for a trailing terminator. -/
def pySplitlines : PyStr → List PyStr
  | [] => []
  | '\n' :: rest => [] :: pySplitlines rest
  | '\r' :: '\n' :: rest => [] :: pySplitlines rest
  | '\r' :: rest => [] :: pySplitlines rest
  | c :: rest => consCar c (pySplitlines rest)

/-- Python `text.split("\n")` as used by `ResultsPanel.write`
(results_panel.py line 174): split exactly at LF, keeping empty pieces. -/
def pySplitLF : PyStr → List PyStr
  | [] => [[]]
  | '\n' :: rest => [] :: pySplitLF rest
  | c :: rest => consCar c (pySplitLF rest)

/-- Character class of the separator regex `^[\s\-]+$`
(parsers.py line 35): whitespace or a dash. -/
def wsDash (c : Char) : Bool := wsChar c || c = '-'

/-- The separator-line test `re.match(r"^[\s\-]+$", line)` of
`parse_table` (parsers.py line 35): nonempty, only whitespace and dashes. -/
def isSepLine (l : PyStr) : Bool := !l.isEmpty && l.all wsDash

/-- Python `a.startswith(b)` on our string model. -/
def pyStartsWith (pre s : PyStr) : Bool := pre.isPrefixOf s

/-- Worker for `re.split(r"\s{2,}", line)` (parsers.py lines 49 and 73):
`cur` is the current cell reversed, `pend` the pending whitespace run
reversed.  A maximal whitespace run of length at least two splits; a single
whitespace character stays inside the cell. -/
def splitWs2Go : PyStr → PyStr → PyStr → List PyStr
  | [], cur, pend =>
    if 2 ≤ pend.length then [cur.reverse, []] else [(pend ++ cur).reverse]
  | c :: rest, cur, pend =>
    if wsChar c then splitWs2Go rest cur (c :: pend)
    else if 2 ≤ pend.length then cur.reverse :: splitWs2Go rest [c] []
    else splitWs2Go rest (c :: (pend ++ cur)) []

/-- Python `re.split(r"\s{2,}", line)`. -/
def splitWs2 (l : PyStr) : List PyStr := splitWs2Go l [] []

/-- Cell extraction `[c.strip() for c in re.split(r"\s{2,}", line) if c.strip()]`
(parsers.py lines 49 and 73). -/
def splitCells (line : PyStr) : List PyStr :=
  ((splitWs2 line).map pyStrip).filter (fun c => !c.isEmpty)

/-- The footer-trigger test of `parse_table` (parsers.py lines 62-64):
`stripped.startswith(("Total", "Report:", "Info:", "Warning:", "Error:",
"Success:", "Critical:", "Debug:"))`. -/
def tableFooterStart (st : PyStr) : Bool :=
  pyStartsWith (("Total").toList) st ||
  pyStartsWith (("Report:").toList) st ||
  pyStartsWith (("Info:").toList) st ||
  pyStartsWith (("Warning:").toList) st ||
  pyStartsWith (("Error:").toList) st ||
  pyStartsWith (("Success:").toList) st ||
  pyStartsWith (("Critical:").toList) st ||
  pyStartsWith (("Debug:").toList) st

/-- The footer-filter test of `parse_table` (parsers.py line 69):
`re.match(r"^(Report|Info|Warning|Error|Debug|Critical):", stripped)`.
Note the source drops neither `Total`- nor `Success:`-prefixed lines here. -/
def tableFooterDrop (st : PyStr) : Bool :=
  pyStartsWith (("Report:").toList) st ||
  pyStartsWith (("Info:").toList) st ||
  pyStartsWith (("Warning:").toList) st ||
  pyStartsWith (("Error:").toList) st ||
  pyStartsWith (("Debug:").toList) st ||
  pyStartsWith (("Critical:").toList) st

/-- Result of `parse_table` (parsers.py): the `headers` / `rows` / `footer`
dictionary. -/
structure TableData where
  headers : List PyStr
  rows : List (List PyStr)
  footer : PyStr
deriving DecidableEq, Repr

/-- Python `"\n".join(lines)` (parsers.py line 77; the source's
`if footer_lines else ""` branch coincides with the join of `[]`). -/
def joinNewline : List PyStr → PyStr
  | [] => []
  | [l] => l
  | l :: ls => l ++ '\n' :: joinNewline ls

/-- Loop state of the row/footer loop of `parse_table`
(parsers.py lines 52-54): `rows`, `footer_lines`, `in_footer`. -/
structure TabLoopState where
  rows : List (List PyStr)
  footerLines : List PyStr
  inFooter : Bool
deriving DecidableEq, Repr

/-- One iteration of the row/footer loop of `parse_table`
(parsers.py lines 56-75). -/
def tableStep (s : TabLoopState) (line : PyStr) : TabLoopState :=
  let stripped := pyStrip line
  if s.inFooter || stripped.isEmpty || tableFooterStart stripped then
    { rows := s.rows
      footerLines :=
        if !stripped.isEmpty && !tableFooterDrop stripped then
          s.footerLines ++ [stripped]
        else s.footerLines
      inFooter := true }
  else
    let cells := splitCells line
    { rows := if !cells.isEmpty then s.rows ++ [cells] else s.rows
      footerLines := s.footerLines
      inFooter := false }

/-- The separator search of `parse_table` (parsers.py lines 32-37): index of
the first line matching `^[\s\-]+$`, if any. -/
def findSepIdx : List PyStr → Option Nat
  | [] => none
  | l :: ls => if isSepLine l then some 0 else (findSepIdx ls).map (· + 1)

/-- `parse_table` (parsers.py lines 7-79). -/
def parseTable (text : PyStr) : TableData :=
  let lines := pySplitlines (pyStrip text)
  if lines.isEmpty then ⟨[], [], []⟩
  else
    match findSepIdx lines with
    | none => ⟨[], [], text⟩
    | some sepIdx =>
      let headers :=
        if sepIdx = 0 then [] else splitCells (lines.getD (sepIdx - 1) [])
      let st := (lines.drop (sepIdx + 1)).foldl tableStep ⟨[], [], false⟩
      ⟨headers, st.rows, joinNewline st.footerLines⟩

/-- The skip test of `parse_computer_list` (parsers.py lines 109-112):
`stripped.startswith(("Report:", "Info:", "Warning:", "Error:", "Success:",
"Critical:", "Debug:"))`. -/
def computerSkip (st : PyStr) : Bool :=
  pyStartsWith (("Report:").toList) st ||
  pyStartsWith (("Info:").toList) st ||
  pyStartsWith (("Warning:").toList) st ||
  pyStartsWith (("Error:").toList) st ||
  pyStartsWith (("Success:").toList) st ||
  pyStartsWith (("Critical:").toList) st ||
  pyStartsWith (("Debug:").toList) st

/-- One line of the `parse_computer_list` loop (parsers.py lines 106-120):
`none` when skipped, otherwise the single-cell row appended.  The source's
final `elif stripped:` guard is vacuously true there because emptiness was
already excluded. -/
def computerRow (line : PyStr) : Option (List PyStr) :=
  let st := pyStrip line
  if st.isEmpty || computerSkip st then none
  else if pyStartsWith ('*' :: [' ']) st then some [pyStrip (st.drop 2)]
  else some [st]

/-- `parse_computer_list` (parsers.py lines 94-126). -/
def parseComputerList (text : PyStr) : TableData :=
  { headers := [("label").toList]
    rows := (pySplitlines (pyStrip text)).filterMap computerRow
    footer := [] }

/-! Basic facts about the string model. -/

theorem wsChar_iff {c : Char} :
    wsChar c = true ↔ (c = ' ' ∨ c = '\t' ∨ c = '\n' ∨ c = '\r') := by
  simp [wsChar]
  tauto

theorem consCar_ne_nil (c : Char) (ls : List PyStr) : consCar c ls ≠ [] := by
  cases ls <;> simp [consCar]

theorem pySplitlines_cons_other {c : Char} (rest : PyStr)
    (h1 : c ≠ '\n') (h2 : c ≠ '\r') :
    pySplitlines (c :: rest) = consCar c (pySplitlines rest) := by
  rw [pySplitlines.eq_def]
  split <;> simp_all

theorem pySplitlines_eq_nil_iff (s : PyStr) : pySplitlines s = [] ↔ s = [] := by
  cases s with
  | nil => simp [pySplitlines]
  | cons c rest =>
    simp only [List.cons_ne_nil, iff_false]
    rw [pySplitlines.eq_def]
    split
    · simp_all
    · simp
    · simp
    · simp
    · exact consCar_ne_nil _ _

theorem pyRstrip_eq_nil_iff (s : PyStr) : pyRstrip s = [] ↔ s.all wsChar := by
  induction s with
  | nil => simp [pyRstrip]
  | cons c rest ih =>
    by_cases h : pyRstrip rest = []
    · have hall := ih.mp h
      by_cases hc : wsChar c
      · simp [pyRstrip, h, hc, hall]
      · simp [pyRstrip, h, hc, hall]
    · have hna : ¬ rest.all wsChar = true := fun hall => h (ih.mpr hall)
      simp [pyRstrip, h, hna]

theorem pyRstrip_decomp (s : PyStr) :
    ∃ run, s = pyRstrip s ++ run ∧ run.all wsChar := by
  induction s with
  | nil => exact ⟨[], rfl, rfl⟩
  | cons c rest ih =>
    obtain ⟨run, hres, hws⟩ := ih
    by_cases h : pyRstrip rest = []
    · rw [h] at hres
      simp only [List.nil_append] at hres
      by_cases hc : wsChar c
      · refine ⟨c :: rest, ?_, ?_⟩
        · simp [pyRstrip, h, hc]
        · simp only [List.all_cons, hc, Bool.true_and]
          exact (pyRstrip_eq_nil_iff rest).mp h
      · refine ⟨rest, ?_, (pyRstrip_eq_nil_iff rest).mp h⟩
        simp [pyRstrip, h, hc]
    · exact ⟨run, by simpa [pyRstrip, h] using congrArg (c :: ·) hres, hws⟩

theorem pyRstrip_append_ws (u : PyStr) {c : Char} (hc : wsChar c) :
    pyRstrip (u ++ [c]) = pyRstrip u := by
  induction u with
  | nil => simp [pyRstrip, hc]
  | cons d u' ih =>
    simp [pyRstrip, List.cons_append, ih]

theorem pyRstrip_idem (s : PyStr) : pyRstrip (pyRstrip s) = pyRstrip s := by
  induction s with
  | nil => rfl
  | cons c rest ih =>
    by_cases h : pyRstrip rest = []
    · by_cases hc : wsChar c
      · simp [pyRstrip, h, hc]
      · simp [pyRstrip, h, hc]
    · simp only [pyRstrip, if_neg h, ih, h]

theorem allWs_pyLstrip_eq_nil {s : PyStr} (h : s.all wsChar) : pyLstrip s = [] := by
  induction s with
  | nil => rfl
  | cons c rest ih =>
    simp only [List.all_cons, Bool.and_eq_true] at h
    simp only [pyLstrip, List.dropWhile_cons, h.1, if_pos]
    exact ih h.2

theorem pyLstrip_pyRstrip_comm (s : PyStr) :
    pyLstrip (pyRstrip s) = pyRstrip (pyLstrip s) := by
  induction s with
  | nil => rfl
  | cons c rest ih =>
    by_cases hc : wsChar c
    · by_cases h : pyRstrip rest = []
      · have hall : rest.all wsChar := (pyRstrip_eq_nil_iff rest).mp h
        have h1 : pyRstrip (c :: rest) = [] := by simp [pyRstrip, h, hc]
        have h2 : pyLstrip rest = [] := allWs_pyLstrip_eq_nil hall
        rw [h1]
        have h3 : pyLstrip (c :: rest) = pyLstrip rest := by
          simp [pyLstrip, List.dropWhile_cons, hc]
        rw [h3, h2]
        rfl
      · have h1 : pyRstrip (c :: rest) = c :: pyRstrip rest := by
          simp [pyRstrip, h]
        have h2 : pyLstrip (c :: rest) = pyLstrip rest := by
          simp [pyLstrip, List.dropWhile_cons, hc]
        rw [h1, h2, ← ih]
        simp [pyLstrip, List.dropWhile_cons, hc]
    · have h2 : pyLstrip (c :: rest) = c :: rest := by
        simp [pyLstrip, List.dropWhile_cons, hc]
      rw [h2]
      by_cases h : pyRstrip rest = []
      · have h1 : pyRstrip (c :: rest) = [c] := by simp [pyRstrip, h, hc]
        rw [h1]
        simp [pyLstrip, List.dropWhile_cons, hc, pyRstrip, h]
      · have h1 : pyRstrip (c :: rest) = c :: pyRstrip rest := by
          simp [pyRstrip, h]
        rw [h1]
        simp [pyLstrip, List.dropWhile_cons, hc]

theorem pyStrip_pyRstrip (s : PyStr) : pyStrip (pyRstrip s) = pyStrip s := by
  unfold pyStrip
  rw [pyLstrip_pyRstrip_comm, pyRstrip_idem]

/-! How `pySplitlines` reacts to whitespace added at either end of the
string.  These lemmas carry separator lines across `str.strip()`, which is
what connects the lines of the raw input to the lines `parse_table`
actually scans. -/

theorem pySplitlines_lf (u : PyStr) :
    pySplitlines ('\n' :: u) = [] :: pySplitlines u := rfl

theorem pySplitlines_crlf (u : PyStr) :
    pySplitlines ('\r' :: '\n' :: u) = [] :: pySplitlines u := rfl

theorem pySplitlines_cr_cons (d : Char) (u : PyStr) (hd : d ≠ '\n') :
    pySplitlines ('\r' :: d :: u) = [] :: pySplitlines (d :: u) := by
  rw [pySplitlines.eq_def]
  split
  · simp_all
  · simp_all
  · simp_all
  · simp_all
  · rename_i hne1 hne2 heq
    injection heq with h1 h2
    exact absurd h1.symm hne2

/-- Shape of `pySplitlines (t ++ [c])` for whitespace `c`: the line list is
unchanged, gains one all-whitespace line, or has its last line extended
by `c`. -/
def SnocShape (c : Char) (t : PyStr) : Prop :=
  pySplitlines (t ++ [c]) = pySplitlines t ∨
  (∃ nl : PyStr, nl.all wsChar = true ∧
    pySplitlines (t ++ [c]) = pySplitlines t ++ [nl]) ∨
  (∃ init lastl, pySplitlines t = init ++ [lastl] ∧
    pySplitlines (t ++ [c]) = init ++ [lastl ++ [c]])

theorem snocShape_shift {c : Char} {t u : PyStr}
    (ht : pySplitlines t = [] :: pySplitlines u)
    (htc : pySplitlines (t ++ [c]) = [] :: pySplitlines (u ++ [c]))
    (h : SnocShape c u) : SnocShape c t := by
  rcases h with h1 | ⟨nl, hnl, h2⟩ | ⟨init, lastl, h3, h4⟩
  · left; rw [htc, h1, ← ht]
  · right; left
    refine ⟨nl, hnl, ?_⟩
    rw [htc, h2, ht]
    rfl
  · right; right
    refine ⟨[] :: init, lastl, ?_, ?_⟩
    · rw [ht, h3]; rfl
    · rw [htc, h4]; rfl

theorem snocShape_nil {c : Char} (hc : wsChar c = true) : SnocShape c [] := by
  rcases wsChar_iff.mp hc with h | h | h | h <;> subst h
  · exact Or.inr (Or.inl ⟨[' '], by decide, by decide⟩)
  · exact Or.inr (Or.inl ⟨['\t'], by decide, by decide⟩)
  · exact Or.inr (Or.inl ⟨[], by decide, by decide⟩)
  · exact Or.inr (Or.inl ⟨[], by decide, by decide⟩)

theorem pySplitlines_snoc_ws {c : Char} (hc : wsChar c = true) (t : PyStr) :
    SnocShape c t := by
  have key : ∀ n, ∀ t : PyStr, t.length ≤ n → SnocShape c t := by
    intro n
    induction n with
    | zero =>
      intro t ht
      have ht0 : t = [] := by
        cases t with
        | nil => rfl
        | cons a b => simp at ht
      subst ht0
      exact snocShape_nil hc
    | succ n ih =>
      intro t ht
      cases t with
      | nil => exact snocShape_nil hc
      | cons x rest =>
        have hlen : rest.length ≤ n := by
          simp only [List.length_cons] at ht; omega
        by_cases hx1 : x = '\n'
        · subst hx1
          refine snocShape_shift (pySplitlines_lf rest) ?_ (ih rest hlen)
          rw [List.cons_append]
          exact pySplitlines_lf (rest ++ [c])
        · by_cases hx2 : x = '\r'
          · subst hx2
            cases rest with
            | nil =>
              rcases wsChar_iff.mp hc with h | h | h | h <;> subst h
              · exact Or.inr (Or.inl ⟨[' '], by decide, by decide⟩)
              · exact Or.inr (Or.inl ⟨['\t'], by decide, by decide⟩)
              · exact Or.inl (by decide)
              · exact Or.inr (Or.inl ⟨[], by decide, by decide⟩)
            | cons d rest2 =>
              have hlen2 : rest2.length ≤ n := by
                simp only [List.length_cons] at ht; omega
              by_cases hd : d = '\n'
              · subst hd
                refine snocShape_shift (pySplitlines_crlf rest2) ?_ (ih rest2 hlen2)
                rw [List.cons_append, List.cons_append]
                exact pySplitlines_crlf (rest2 ++ [c])
              · have hlen3 : (d :: rest2).length ≤ n := by
                  simp only [List.length_cons] at ht ⊢; omega
                refine snocShape_shift (pySplitlines_cr_cons d rest2 hd) ?_
                  (ih (d :: rest2) hlen3)
                rw [List.cons_append, List.cons_append]
                exact pySplitlines_cr_cons d (rest2 ++ [c]) hd
          · have e : pySplitlines (x :: rest) = consCar x (pySplitlines rest) :=
              pySplitlines_cons_other rest hx1 hx2
            have ec : pySplitlines ((x :: rest) ++ [c])
                = consCar x (pySplitlines (rest ++ [c])) := by
              rw [List.cons_append]
              exact pySplitlines_cons_other _ hx1 hx2
            rcases ih rest hlen with h1 | ⟨nl, hnl, h2⟩ | ⟨init, lastl, h3, h4⟩
            · left; rw [ec, h1, ← e]
            · cases hsr : pySplitlines rest with
              | nil =>
                have hrest : rest = [] := (pySplitlines_eq_nil_iff rest).mp hsr
                subst hrest
                rcases wsChar_iff.mp hc with h | h | h | h <;> subst h
                · right; right
                  refine ⟨[], [x], by rw [e]; rfl, ?_⟩
                  rw [ec]; rfl
                · right; right
                  refine ⟨[], [x], by rw [e]; rfl, ?_⟩
                  rw [ec]; rfl
                · left; rw [ec, e]; rfl
                · left; rw [ec, e]; rfl
              | cons h0 tl =>
                right; left
                refine ⟨nl, hnl, ?_⟩
                rw [ec, h2, e, hsr]
                rfl
            · cases init with
              | nil =>
                right; right
                refine ⟨[], x :: lastl, ?_, ?_⟩
                · rw [e, h3]; rfl
                · rw [ec, h4]; rfl
              | cons i0 irest =>
                right; right
                refine ⟨(x :: i0) :: irest, lastl, ?_, ?_⟩
                · rw [e, h3]; rfl
                · rw [ec, h4]; rfl
  exact key t.length t le_rfl

theorem isSepLine_nil : isSepLine [] = false := rfl

theorem isSepLine_cons {c : Char} (hcd : wsDash c = true) {l : PyStr}
    (h : l.all wsDash = true) : isSepLine (c :: l) = true := by
  simp [isSepLine, hcd, h]

theorem isSepLine_all {l : PyStr} (h : isSepLine l = true) :
    l.all wsDash = true := by
  simp only [isSepLine, Bool.and_eq_true] at h
  exact h.2

theorem isSepLine_snoc_ws {c : Char} (hc : wsChar c = true) {l : PyStr}
    (h : isSepLine l = true) : isSepLine (l ++ [c]) = true := by
  have h1 := isSepLine_all h
  have h2 : (l ++ [c]).all wsDash = true := by
    simp [List.all_append, h1, wsDash, hc]
  have h3 : (l ++ [c]).isEmpty = false := by
    cases l <;> rfl
  simp [isSepLine, h2, h3]

theorem sep_exists_consCar {c : Char} (hcd : wsDash c = true) {t : PyStr}
    (h : ∃ l ∈ pySplitlines t, isSepLine l = true) :
    ∃ l ∈ consCar c (pySplitlines t), isSepLine l = true := by
  obtain ⟨l, hl, hsep⟩ := h
  cases hsr : pySplitlines t with
  | nil => rw [hsr] at hl; simp at hl
  | cons h0 tl =>
    rw [hsr] at hl
    rcases List.mem_cons.mp hl with rfl | hl
    · exact ⟨c :: l, List.mem_cons_self _ _, isSepLine_cons hcd (isSepLine_all hsep)⟩
    · exact ⟨l, List.mem_cons_of_mem _ hl, hsep⟩

theorem sep_exists_cons {c : Char} (hc : wsChar c = true) {t : PyStr}
    (h : ∃ l ∈ pySplitlines t, isSepLine l = true) :
    ∃ l ∈ pySplitlines (c :: t), isSepLine l = true := by
  rcases wsChar_iff.mp hc with h' | h' | h' | h' <;> subst h'
  · rw [pySplitlines_cons_other t (by decide) (by decide)]
    exact sep_exists_consCar (by decide) h
  · rw [pySplitlines_cons_other t (by decide) (by decide)]
    exact sep_exists_consCar (by decide) h
  · rw [pySplitlines_lf]
    obtain ⟨l, hl, hsep⟩ := h
    exact ⟨l, List.mem_cons_of_mem _ hl, hsep⟩
  · cases t with
    | nil =>
      obtain ⟨l, hl, _⟩ := h
      simp [pySplitlines] at hl
    | cons d t2 =>
      by_cases hd : d = '\n'
      · subst hd
        rw [pySplitlines_crlf]
        obtain ⟨l, hl, hsep⟩ := h
        rw [pySplitlines_lf] at hl
        rcases List.mem_cons.mp hl with rfl | hl
        · rw [isSepLine_nil] at hsep; exact absurd hsep (by simp)
        · exact ⟨l, List.mem_cons_of_mem _ hl, hsep⟩
      · rw [pySplitlines_cr_cons d t2 hd]
        obtain ⟨l, hl, hsep⟩ := h
        exact ⟨l, List.mem_cons_of_mem _ hl, hsep⟩

theorem sep_exists_snoc {c : Char} (hc : wsChar c = true) {t : PyStr}
    (h : ∃ l ∈ pySplitlines t, isSepLine l = true) :
    ∃ l ∈ pySplitlines (t ++ [c]), isSepLine l = true := by
  rcases pySplitlines_snoc_ws hc t with h1 | ⟨nl, hnl, h2⟩ | ⟨init, lastl, h3, h4⟩
  · rw [h1]; exact h
  · rw [h2]
    obtain ⟨l, hl, hs⟩ := h
    exact ⟨l, List.mem_append_left _ hl, hs⟩
  · obtain ⟨l, hl, hs⟩ := h
    rw [h3] at hl
    rcases List.mem_append.mp hl with hl | hl
    · exact ⟨l, by rw [h4]; exact List.mem_append_left _ hl, hs⟩
    · have hll : l = lastl := by simpa using hl
      subst hll
      refine ⟨l ++ [c], ?_, isSepLine_snoc_ws hc hs⟩
      rw [h4]
      exact List.mem_append_right _ (by simp)

theorem sep_exists_append_run : ∀ (run : PyStr), run.all wsChar = true →
    ∀ (base : PyStr), (∃ l ∈ pySplitlines base, isSepLine l = true) →
    ∃ l ∈ pySplitlines (base ++ run), isSepLine l = true := by
  intro run
  induction run with
  | nil => intro _ base h; simpa using h
  | cons c run' ih =>
    intro hws base h
    simp only [List.all_cons, Bool.and_eq_true] at hws
    have h1 := sep_exists_snoc hws.1 h
    have h2 := ih hws.2 (base ++ [c]) h1
    simpa [List.append_assoc] using h2

theorem sep_exists_prepend_run : ∀ (run : PyStr), run.all wsChar = true →
    ∀ (t : PyStr), (∃ l ∈ pySplitlines t, isSepLine l = true) →
    ∃ l ∈ pySplitlines (run ++ t), isSepLine l = true := by
  intro run
  induction run with
  | nil => intro _ t h; simpa using h
  | cons c run' ih =>
    intro hws t h
    simp only [List.all_cons, Bool.and_eq_true] at hws
    exact sep_exists_cons hws.1 (ih hws.2 t h)

theorem sep_exists_of_strip {s : PyStr}
    (h : ∃ l ∈ pySplitlines (pyStrip s), isSepLine l = true) :
    ∃ l ∈ pySplitlines s, isSepLine l = true := by
  obtain ⟨run, hdec, hws⟩ := pyRstrip_decomp (pyLstrip s)
  have h1 : ∃ l ∈ pySplitlines (pyLstrip s), isSepLine l = true := by
    rw [hdec]
    exact sep_exists_append_run run hws _ h
  have hall : (s.takeWhile wsChar).all wsChar = true :=
    List.all_eq_true.mpr (fun c hcmem => List.mem_takeWhile_imp hcmem)
  have h2 := sep_exists_prepend_run (s.takeWhile wsChar) hall (pyLstrip s) h1
  unfold pyLstrip at h2
  rwa [List.takeWhile_append_dropWhile] at h2

theorem allWs_pyStrip_eq_nil {s : PyStr} (h : s.all wsChar = true) :
    pyStrip s = [] := by
  unfold pyStrip
  rw [allWs_pyLstrip_eq_nil h]
  rfl

theorem pyLstrip_append_of_ne_nil {u : PyStr} (v : PyStr)
    (h : pyLstrip u ≠ []) : pyLstrip (u ++ v) = pyLstrip u ++ v := by
  induction u with
  | nil => exact absurd rfl h
  | cons c u' ih =>
    by_cases hc : wsChar c
    · have h' : pyLstrip u' ≠ [] := by
        simpa [pyLstrip, List.dropWhile_cons, hc] using h
      rw [List.cons_append]
      show List.dropWhile wsChar (c :: (u' ++ v)) = List.dropWhile wsChar (c :: u') ++ v
      rw [List.dropWhile_cons, List.dropWhile_cons, if_pos hc, if_pos hc]
      exact ih h'
    · simp [pyLstrip, List.dropWhile_cons, hc]

theorem pyStrip_cons_ws {c : Char} (hc : wsChar c = true) (u : PyStr) :
    pyStrip (c :: u) = pyStrip u := by
  unfold pyStrip pyLstrip
  simp [List.dropWhile_cons, hc]

theorem pyStrip_snoc_ws {c : Char} (hc : wsChar c = true) (u : PyStr) :
    pyStrip (u ++ [c]) = pyStrip u := by
  by_cases h : pyLstrip u = []
  · have hall : ∀ x ∈ u, wsChar x = true := by
      unfold pyLstrip at h
      exact List.dropWhile_eq_nil_iff.mp h
    have h1 : pyStrip (u ++ [c]) = [] := by
      refine allWs_pyStrip_eq_nil (List.all_eq_true.mpr ?_)
      intro x hx
      rcases List.mem_append.mp hx with hx | hx
      · exact hall x hx
      · have : x = c := by simpa using hx
        subst this; exact hc
    have h2 : pyStrip u = [] := allWs_pyStrip_eq_nil (List.all_eq_true.mpr hall)
    rw [h1, h2]
  · unfold pyStrip
    rw [pyLstrip_append_of_ne_nil [c] h, pyRstrip_append_ws _ hc]

/-- Correspondence used to carry raw-input lines to the lines scanned after
`str.strip()`: every line of `big` is all-whitespace or agrees after
stripping with some line of `small`. -/
def StripCounterpart (big small : PyStr) : Prop :=
  ∀ l ∈ pySplitlines big, pyStrip l = [] ∨
    ∃ l2 ∈ pySplitlines small, pyStrip l2 = pyStrip l

theorem stripCounterpart_refl (s : PyStr) : StripCounterpart s s :=
  fun l hl => Or.inr ⟨l, hl, rfl⟩

theorem stripCounterpart_trans {a b c : PyStr}
    (h1 : StripCounterpart a b) (h2 : StripCounterpart b c) :
    StripCounterpart a c := by
  intro l hl
  rcases h1 l hl with h | ⟨l2, hl2, he⟩
  · exact Or.inl h
  · rcases h2 l2 hl2 with h | ⟨l3, hl3, he'⟩
    · rw [h] at he; exact Or.inl he.symm
    · exact Or.inr ⟨l3, hl3, he'.trans he⟩

theorem stripCounterpart_snoc {c : Char} (hc : wsChar c = true) (t : PyStr) :
    StripCounterpart (t ++ [c]) t := by
  intro l hl
  rcases pySplitlines_snoc_ws hc t with h1 | ⟨nl, hnl, h2⟩ | ⟨init, lastl, h3, h4⟩
  · rw [h1] at hl; exact Or.inr ⟨l, hl, rfl⟩
  · rw [h2] at hl
    rcases List.mem_append.mp hl with hl | hl
    · exact Or.inr ⟨l, hl, rfl⟩
    · have : l = nl := by simpa using hl
      subst this
      exact Or.inl (allWs_pyStrip_eq_nil hnl)
  · rw [h4] at hl
    rcases List.mem_append.mp hl with hl | hl
    · exact Or.inr ⟨l, by rw [h3]; exact List.mem_append_left _ hl, rfl⟩
    · have : l = lastl ++ [c] := by simpa using hl
      subst this
      refine Or.inr ⟨lastl, by rw [h3]; exact List.mem_append_right _ (by simp), ?_⟩
      exact (pyStrip_snoc_ws hc lastl).symm

theorem stripCounterpart_cons {c : Char} (hc : wsChar c = true) (t : PyStr) :
    StripCounterpart (c :: t) t := by
  intro l hl
  rcases wsChar_iff.mp hc with h' | h' | h' | h' <;> subst h'
  · rw [pySplitlines_cons_other t (by decide) (by decide)] at hl
    cases hsr : pySplitlines t with
    | nil =>
      rw [hsr] at hl
      simp only [consCar] at hl
      have : l = [' '] := by simpa using hl
      subst this
      exact Or.inl (by decide)
    | cons h0 tl =>
      rw [hsr] at hl
      simp only [consCar] at hl
      rcases List.mem_cons.mp hl with rfl | hl
      · exact Or.inr ⟨h0, List.mem_cons_self _ _,
          (pyStrip_cons_ws (by decide) h0).symm⟩
      · exact Or.inr ⟨l, List.mem_cons_of_mem _ hl, rfl⟩
  · rw [pySplitlines_cons_other t (by decide) (by decide)] at hl
    cases hsr : pySplitlines t with
    | nil =>
      rw [hsr] at hl
      simp only [consCar] at hl
      have : l = ['\t'] := by simpa using hl
      subst this
      exact Or.inl (by decide)
    | cons h0 tl =>
      rw [hsr] at hl
      simp only [consCar] at hl
      rcases List.mem_cons.mp hl with rfl | hl
      · exact Or.inr ⟨h0, List.mem_cons_self _ _,
          (pyStrip_cons_ws (by decide) h0).symm⟩
      · exact Or.inr ⟨l, List.mem_cons_of_mem _ hl, rfl⟩
  · rw [pySplitlines_lf] at hl
    rcases List.mem_cons.mp hl with rfl | hl
    · exact Or.inl rfl
    · exact Or.inr ⟨l, hl, rfl⟩
  · cases t with
    | nil =>
      simp only [pySplitlines] at hl
      have : l = [] := by simpa using hl
      subst this
      exact Or.inl rfl
    | cons d t2 =>
      by_cases hd : d = '\n'
      · subst hd
        rw [pySplitlines_crlf] at hl
        rcases List.mem_cons.mp hl with rfl | hl
        · exact Or.inl rfl
        · exact Or.inr ⟨l, by rw [pySplitlines_lf]; exact List.mem_cons_of_mem _ hl, rfl⟩
      · rw [pySplitlines_cr_cons d t2 hd] at hl
        rcases List.mem_cons.mp hl with rfl | hl
        · exact Or.inl rfl
        · exact Or.inr ⟨l, hl, rfl⟩

theorem stripCounterpart_append_run : ∀ (run : PyStr), run.all wsChar = true →
    ∀ (base : PyStr), StripCounterpart (base ++ run) base := by
  intro run
  induction run with
  | nil => intro _ base; simpa using stripCounterpart_refl base
  | cons c run' ih =>
    intro hws base
    simp only [List.all_cons, Bool.and_eq_true] at hws
    have step1 : StripCounterpart ((base ++ [c]) ++ run') (base ++ [c]) :=
      ih hws.2 (base ++ [c])
    have step2 : StripCounterpart (base ++ [c]) base :=
      stripCounterpart_snoc hws.1 base
    have := stripCounterpart_trans step1 step2
    simpa [List.append_assoc] using this

theorem stripCounterpart_prepend_run : ∀ (run : PyStr), run.all wsChar = true →
    ∀ (t : PyStr), StripCounterpart (run ++ t) t := by
  intro run
  induction run with
  | nil => intro _ t; simpa using stripCounterpart_refl t
  | cons c run' ih =>
    intro hws t
    simp only [List.all_cons, Bool.and_eq_true] at hws
    exact stripCounterpart_trans (stripCounterpart_cons hws.1 (run' ++ t)) (ih hws.2 t)

theorem stripCounterpart_strip (s : PyStr) :
    StripCounterpart s (pyStrip s) := by
  obtain ⟨run, hdec, hws⟩ := pyRstrip_decomp (pyLstrip s)
  have hall : (s.takeWhile wsChar).all wsChar = true :=
    List.all_eq_true.mpr (fun c hcmem => List.mem_takeWhile_imp hcmem)
  have h1 : StripCounterpart s (pyLstrip s) := by
    have := stripCounterpart_prepend_run (s.takeWhile wsChar) hall (pyLstrip s)
    unfold pyLstrip at this ⊢
    rwa [List.takeWhile_append_dropWhile] at this
  have h2 : StripCounterpart (pyLstrip s) (pyStrip s) := by
    have := stripCounterpart_append_run run hws (pyRstrip (pyLstrip s))
    rw [← hdec] at this
    exact this
  exact stripCounterpart_trans h1 h2

theorem findSepIdx_eq_none_iff (ls : List PyStr) :
    findSepIdx ls = none ↔ ∀ l ∈ ls, isSepLine l = false := by
  induction ls with
  | nil => simp [findSepIdx]
  | cons l ls ih =>
    by_cases h : isSepLine l
    · simp [findSepIdx, h]
    · simp only [findSepIdx, h, if_neg, Bool.false_eq_true, if_false,
        Option.map_eq_none', List.mem_cons]
      constructor
      · intro hn l' hl'
        rcases hl' with rfl | hl'
        · simpa using h
        · exact (ih.mp hn) l' hl'
      · intro hall
        exact ih.mpr (fun l' hl' => hall l' (Or.inr hl'))

/-! Core parse-level facts. -/

theorem parseTable_no_sep_core {s : PyStr}
    (h : ∀ l ∈ pySplitlines s, isSepLine l = false) :
    parseTable s = ⟨[], [], if pyStrip s = [] then [] else s⟩ := by
  have hnos : ∀ l ∈ pySplitlines (pyStrip s), isSepLine l = false := by
    intro l hl
    by_contra hne
    have hsep : isSepLine l = true := by simpa using hne
    obtain ⟨l2, hl2, hs2⟩ := sep_exists_of_strip ⟨l, hl, hsep⟩
    have := h l2 hl2
    simp [this] at hs2
  by_cases hemp : pySplitlines (pyStrip s) = []
  · have h0 : pyStrip s = [] := (pySplitlines_eq_nil_iff _).mp hemp
    unfold parseTable
    simp [hemp, h0]
    intro hcontra
    exact absurd rfl hcontra
  · have hfind : findSepIdx (pySplitlines (pyStrip s)) = none :=
      (findSepIdx_eq_none_iff _).mpr hnos
    have hn : pyStrip s ≠ [] := fun hh => hemp (by rw [hh]; rfl)
    unfold parseTable
    simp [hemp, hfind, hn]

theorem parseTable_ws_only {s : PyStr} (h : s.all wsChar = true) :
    parseTable s = ⟨[], [], []⟩ := by
  have h0 : pyStrip s = [] := allWs_pyStrip_eq_nil h
  unfold parseTable
  rw [h0]
  rfl

/-! Facts about the row/footer loop of `parse_table`. -/

theorem tableStep_inFooter {s : TabLoopState} (hs : s.inFooter = true)
    (line : PyStr) :
    (tableStep s line).rows = s.rows ∧ (tableStep s line).inFooter = true := by
  unfold tableStep
  simp [hs]

theorem foldl_tableStep_inFooter (ls : List PyStr) : ∀ {s : TabLoopState},
    s.inFooter = true →
    (ls.foldl tableStep s).rows = s.rows ∧
      (ls.foldl tableStep s).inFooter = true := by
  induction ls with
  | nil => intro s hs; exact ⟨rfl, hs⟩
  | cons l ls ih =>
    intro s hs
    obtain ⟨h1, h2⟩ := tableStep_inFooter hs l
    simp only [List.foldl_cons]
    obtain ⟨h3, h4⟩ := ih h2
    exact ⟨h3.trans h1, h4⟩

theorem tableStep_trigger {s : TabLoopState} {line : PyStr}
    (h : pyStrip line = [] ∨ tableFooterStart (pyStrip line) = true) :
    (tableStep s line).rows = s.rows ∧ (tableStep s line).inFooter = true := by
  unfold tableStep
  rcases h with h | h
  · simp [h]
  · simp [h]

theorem tableStep_footerLines (s : TabLoopState) (line : PyStr) :
    (tableStep s line).footerLines = s.footerLines ∨
    ((tableStep s line).footerLines = s.footerLines ++ [pyStrip line] ∧
      tableFooterDrop (pyStrip line) = false) := by
  unfold tableStep
  by_cases h1 : (s.inFooter || (pyStrip line).isEmpty
      || tableFooterStart (pyStrip line)) = true
  · rw [if_pos h1]
    by_cases h2 : (!(pyStrip line).isEmpty && !tableFooterDrop (pyStrip line)) = true
    · right
      refine ⟨by simp [h2], ?_⟩
      simp only [Bool.and_eq_true, Bool.not_eq_true'] at h2
      exact h2.2
    · left
      simp only [Bool.not_eq_true] at h2
      simp [h2]
  · rw [if_neg h1]
    left
    rfl

theorem foldl_footerLines_drop (ls : List PyStr) : ∀ {s : TabLoopState},
    (∀ fl ∈ s.footerLines, tableFooterDrop fl = false) →
    ∀ fl ∈ (ls.foldl tableStep s).footerLines, tableFooterDrop fl = false := by
  induction ls with
  | nil => intro s hs; exact hs
  | cons l ls ih =>
    intro s hs
    simp only [List.foldl_cons]
    refine ih ?_
    intro fl hfl
    rcases tableStep_footerLines s l with he | ⟨he, hdrop⟩
    · rw [he] at hfl; exact hs fl hfl
    · rw [he] at hfl
      rcases List.mem_append.mp hfl with hfl | hfl
      · exact hs fl hfl
      · have : fl = pyStrip l := by simpa using hfl
        subst this
        exact hdrop

/-! Model of `TablePanel.update_content` row normalisation and the panel
tab cache, and of `LazyVerdiApp._refresh_table_panel`. -/

/-- Row normalisation in `TablePanel.update_content`
(table_panel.py lines 186-192): pad a short row with empty strings, truncate
a long one. -/
def padRow (headers row : List PyStr) : List PyStr :=
  if row.length < headers.length then
    row ++ List.replicate (headers.length - row.length) []
  else if headers.length < row.length then
    row.take headers.length
  else row

/-- The runner's result statuses (runner.py line 131). -/
inductive RStatus
  | running
  | done
  | cancelled
  | failed
deriving DecidableEq, Repr

/-- `CommandResult` (runner.py lines 123-145); times are modelled only by
whether `end_time` has been set. -/
structure CommandResult where
  stdout : PyStr := []
  stderr : PyStr := []
  exitCode : Option Int := none
  status : RStatus := RStatus.running
  endFinalized : Bool := false
deriving DecidableEq, Repr

/-- State of one `TablePanel` (table_panel.py lines 96-99): the active tab
index and the `_tab_contents` cache. -/
structure TablePanelState where
  currentTabIndex : Nat
  tabContents : Nat → Option TableData

/-- `TablePanel.update_content` (table_panel.py lines 162-197) restricted to
its cache effect: line 171 stores the data under the currently active tab
index unconditionally (the remainder of the method re-renders the widget). -/
def updateContent (p : TablePanelState) (d : TableData) : TablePanelState :=
  { p with
    tabContents := fun i =>
      if i = p.currentTabIndex then some d else p.tabContents i }

/-- How the awaited part of `_refresh_table_panel` ends: `run_command`
returned a result (it catches command faults internally), or the body
raised (e.g. the parser or a query failed), reaching the
`except Exception` handler of app.py lines 779-793. -/
inductive RefreshOutcome where
  | ran (result : CommandResult)
  | raised (msg : PyStr)

/-- `LazyVerdiApp._refresh_table_panel` (app.py lines 720-793) restricted to
its effect on the target panel's state: on a returned result the stdout is
stripped (`"No output"` when empty), formatted, parsed and stored via
`update_content`; on a raised exception an empty table whose footer is the
error message is stored via `update_content`.  The stderr routing to
panel-0 touches no panel cache and is not modelled here. -/
def refreshTablePanel (p : TablePanelState) (o : RefreshOutcome)
    (formatter : Option (PyStr → PyStr))
    (parser : Option (PyStr → TableData)) : TablePanelState :=
  match o with
  | .ran result =>
    let s0 := if (pyStrip result.stdout).isEmpty then ("No output").toList
      else pyStrip result.stdout
    let s1 := match formatter with
      | some f => f s0
      | none => s0
    let d := match parser with
      | some pr => pr s1
      | none => ⟨[], [], s1⟩
    updateContent p d
  | .raised msg => updateContent p ⟨[], [], ("Error: ").toList ++ msg⟩

/-! Model of the execution gate of `CommandRunner.run_command`. -/

/-- One request waiting on the execution gate, with the `priority` flag it
was submitted with (runner.py line 176). -/
structure Waiter where
  name : PyStr
  priority : Bool
deriving DecidableEq, Repr

/-- The gate: current holder plus the queue of waiters in arrival order. -/
structure GateState where
  holder : Option Waiter
  queue : List Waiter
deriving DecidableEq, Repr

/-- Release of the gate as `run_command` realises it: `async with lock`
(runner.py line 202) on a plain `asyncio.Lock`, which wakes waiters in FIFO
arrival order.  Nothing in `run_command` consults the `priority` argument —
it is accepted at line 176 and never read again, and the class attributes
`_priority_event` / `_current_priority` (lines 157-158) are never referenced
after their declaration — so the next holder is simply the first-queued
waiter, whatever the priority flags are. -/
def gateRelease (s : GateState) : GateState :=
  { holder := s.queue.head?, queue := s.queue.tail }

/-! Model of `run_command`'s result construction and event order. -/

/-- Observable events of one `run_command` invocation. -/
inductive RunEvent
  | gateAcquired
  | workerRun
  | resultFinalized
  | callbackInvoked
  | gateReleased
deriving DecidableEq, Repr

/-- Index of the first occurrence of an event in a trace. -/
def idxOfEv : List RunEvent → RunEvent → Nat
  | [], _ => 0
  | e :: rest, a => if e = a then 0 else idxOfEv rest a + 1

/-- Event order of one `run_command` invocation (runner.py lines 199-267):
`async with lock` acquires the gate, the body runs the command in a worker
thread, the `finally` block at lines 262-265 first sets `end_time` and then
invokes the callback if registered, and the gate is released when the
`async with` block exits — after the `finally` block has run. -/
def runTrace (withCallback : Bool) : List RunEvent :=
  [RunEvent.gateAcquired, RunEvent.workerRun, RunEvent.resultFinalized] ++
    (if withCallback then [RunEvent.callbackInvoked] else []) ++
    [RunEvent.gateReleased]

/-- Outcome of invoking a Click command function. -/
inductive ClickOutcome where
  | ok (stdout stderr : PyStr) (exitCode : Int)
  | raises (stdout stderr : PyStr) (kind msg tb : PyStr)

/-- Models `CliRunner.invoke` with `catch_exceptions=True` as used by
`_run_click_command_isolated` (runner.py lines 107-116; click is an external
dependency): normal completion yields its exit code and no exception; an
unhandled non-`SystemExit` exception is caught, recorded on the result, and
the exit code set to 1. -/
def clickInvoke : ClickOutcome → PyStr × PyStr × Int × Option (PyStr × PyStr × PyStr)
  | .ok out err code => (out, err, code, none)
  | .raises out err k m tb => (out, err, 1, some (k, m, tb))

/-- The f-string `f"{exc_type}: {exc_msg}\n\n{exc_tb}"` of runner.py
line 251. -/
def excBlock (k m tb : PyStr) : PyStr :=
  k ++ (": ").toList ++ m ++ ("\n\n").toList ++ tb

/-- `run_command`, Click-command path (runner.py lines 222-253 plus the
shared `finally` at 262-265): status from the exit code, exception kind,
message and traceback appended to stderr when present. -/
def runCommandClick (o : ClickOutcome) (withCallback : Bool) :
    CommandResult × List RunEvent :=
  let out := clickInvoke o
  let r0 : CommandResult :=
    { stdout := out.1, stderr := out.2.1, exitCode := some out.2.2.1,
      status := if out.2.2.1 = 0 then RStatus.done else RStatus.failed }
  let r1 :=
    match out.2.2.2 with
    | none => r0
    | some ktb =>
      if r0.stderr = [] then
        { r0 with stderr := excBlock ktb.1 ktb.2.1 ktb.2.2 }
      else
        { r0 with stderr :=
            r0.stderr ++ ("\n\n").toList ++ excBlock ktb.1 ktb.2.1 ktb.2.2 }
  ({ r1 with endFinalized := true }, runTrace withCallback)

/-- Outcome of invoking a plain Python function command. -/
inductive PyFnOutcome where
  | ret (output : Option PyStr)
  | raises (kind msg tb : PyStr)

/-- `run_command`, plain-Python-function path (runner.py lines 205-221 and
the outer `except Exception` handler at lines 258-261, plus the shared
`finally`): a non-cancellation fault reaches the outer handler, which sets
status `failed`, exit code 1, and records only `str(e)` — the fault's
message — in stderr. -/
def runCommandPyFn (o : PyFnOutcome) (withCallback : Bool) :
    CommandResult × List RunEvent :=
  match o with
  | .ret output =>
    ({ stdout := output.getD [], stderr := [], exitCode := some 0,
       status := RStatus.done, endFinalized := true }, runTrace withCallback)
  | .raises _kind msg _tb =>
    ({ stdout := [], stderr := msg, exitCode := some 1,
       status := RStatus.failed, endFinalized := true }, runTrace withCallback)

/-- Substring test (Python's `in` on strings). -/
def containsSeq (hay needle : PyStr) : Bool :=
  hay.tails.any (fun t => needle.isPrefixOf t)

/-! Model of `ResultsPanel.write` (results_panel.py lines 153-179) and its
helpers. -/

/-- The filter regex `^(Report|Info|Warning|Error|Total|Success|Critical|Debug):`
of `_filter_content_lines` (results_panel.py line 259). -/
def resultsReportLine (st : PyStr) : Bool :=
  pyStartsWith (("Report:").toList) st ||
  pyStartsWith (("Info:").toList) st ||
  pyStartsWith (("Warning:").toList) st ||
  pyStartsWith (("Error:").toList) st ||
  pyStartsWith (("Total:").toList) st ||
  pyStartsWith (("Success:").toList) st ||
  pyStartsWith (("Critical:").toList) st ||
  pyStartsWith (("Debug:").toList) st

/-- One line of `_filter_content_lines` (results_panel.py lines 246-267):
`none` when the line is skipped, otherwise the kept `line.rstrip()`. -/
def filterContentLine (line : PyStr) : Option PyStr :=
  let st := pyStrip line
  if st.isEmpty then none
  else if isSepLine st then none
  else if resultsReportLine st then none
  else if pyStartsWith (("$ verdi").toList) st then none
  else some (pyRstrip line)

/-- `_filter_content_lines` (results_panel.py lines 235-269). -/
def filterContentLines (lines : List PyStr) : List PyStr :=
  lines.filterMap filterContentLine

/-- The recurring-error patterns of `_is_duplicate_error` /
`_mark_error_seen` (results_panel.py lines 191-197 and 212-218). -/
def errorPatterns : List PyStr :=
  [("no aiida profile configured").toList,
   ("i/o operation on closed file").toList,
   ("please run:").toList,
   ("verdi quicksetup").toList,
   ("verdi setup").toList]

/-- Python `str.lower()` on the model. -/
def pyLower (s : PyStr) : PyStr := s.map Char.toLower

/-- `_is_duplicate_error` (results_panel.py lines 181-204). -/
def isDuplicateError (seen : List PyStr) (norm : PyStr) : Bool :=
  errorPatterns.any (fun p => containsSeq norm p && seen.contains p)

/-- `_mark_error_seen` (results_panel.py lines 206-222); the seen set is
modelled as a list whose membership is what matters. -/
def markErrorSeen (seen : List PyStr) (norm : PyStr) : List PyStr :=
  seen ++ errorPatterns.filter (fun p => containsSeq norm p)

/-- State of the results panel: displayed messages and seen error
patterns. -/
structure ResultsPanelState where
  messages : List PyStr
  seenErrors : List PyStr
deriving DecidableEq, Repr

/-- `ResultsPanel.write` (results_panel.py lines 153-179) restricted to its
state effect (`_rebuild_table` re-renders `messages` unchanged; the
`_data_table is None` early-out is a GUI-mount guard with no state
effect). -/
def resultsWrite (st : ResultsPanelState) (text : PyStr)
    (dedupe : Bool := true) : ResultsPanelState :=
  let norm := pyLower (pyStrip text)
  if dedupe && isDuplicateError st.seenErrors norm then st
  else
    let seen1 := if dedupe then markErrorSeen st.seenErrors norm else st.seenErrors
    { messages := st.messages ++ filterContentLines (pySplitLF text)
      seenErrors := seen1 }

theorem filterContentLine_sound {line l : PyStr}
    (he : filterContentLine line = some l) :
    l = pyRstrip line ∧ (pyStrip line).isEmpty = false ∧
    isSepLine (pyStrip line) = false ∧
    resultsReportLine (pyStrip line) = false ∧
    pyStartsWith (("$ verdi").toList) (pyStrip line) = false := by
  simp only [filterContentLine] at he
  by_cases h1 : (pyStrip line).isEmpty
  · rw [if_pos h1] at he; exact absurd he (by simp)
  · rw [if_neg h1] at he
    by_cases h2 : isSepLine (pyStrip line)
    · rw [if_pos h2] at he; exact absurd he (by simp)
    · rw [if_neg h2] at he
      by_cases h3 : resultsReportLine (pyStrip line)
      · rw [if_pos h3] at he; exact absurd he (by simp)
      · rw [if_neg h3] at he
        by_cases h4 : pyStartsWith (("$ verdi").toList) (pyStrip line)
        · rw [if_pos h4] at he; exact absurd he (by simp)
        · rw [if_neg h4] at he
          have hval : pyRstrip line = l := by
            injection he
          exact ⟨hval.symm, Bool.not_eq_true _ ▸ (by simpa using h1),
            by simpa using h2, by simpa using h3, by simpa using h4⟩

/-! Claim theorems. -/

/-- C1, counterexample: the claim says a failing refresh leaves the cached
content of the active tab untouched.  On the concrete panel state caching a
one-row table under tab 0, a refresh whose command failed (run_command
returned status `failed` with empty stdout) overwrites the cache entry with
the parsed `"No output"` fallback table, which differs from the cached
value. -/
theorem c1_refresh_failure_cache_cex :
    ((refreshTablePanel
        ⟨0, fun i => if i = 0 then
            some ⟨[("H").toList], [[("v").toList]], []⟩ else none⟩
        (.ran { stdout := [], stderr := ("boom").toList, exitCode := some 1,
                status := RStatus.failed, endFinalized := true })
        none (some parseTable)).tabContents 0
      = some ⟨[], [], ("No output").toList⟩) ∧
    ((⟨0, fun i => if i = 0 then
          some ⟨[("H").toList], [[("v").toList]], []⟩ else none⟩ :
        TablePanelState).tabContents 0
      = some ⟨[("H").toList], [[("v").toList]], []⟩) ∧
    (some (⟨[], [], ("No output").toList⟩ : TableData)
      ≠ some (⟨[("H").toList], [[("v").toList]], []⟩ : TableData)) := by
  refine ⟨by decide, rfl, by decide⟩

/-- C1, amended: a failing refresh of the active tab overwrites the panel's
cache entry for that tab rather than leaving it untouched: when the refresh
path raises, with an empty table whose footer is the error message
(app.py line 791); when the command fails and run_command returns a failed
result with empty stdout, with the parse of the `"No output"` fallback
(app.py lines 745-775). -/
theorem c1_refresh_failure_overwrites_cache (p : TablePanelState) (msg : PyStr)
    (res : CommandResult) (hres : res.status = RStatus.failed)
    (hstdout : res.stdout = []) :
    ((refreshTablePanel p (.raised msg) none (some parseTable)).tabContents
        p.currentTabIndex = some ⟨[], [], ("Error: ").toList ++ msg⟩) ∧
    ((refreshTablePanel p (.ran res) none (some parseTable)).tabContents
        p.currentTabIndex = some (parseTable (("No output").toList))) := by
  constructor
  · simp [refreshTablePanel, updateContent]
  · have h0 : pyStrip res.stdout = [] := by rw [hstdout]; rfl
    simp [refreshTablePanel, updateContent, h0]

/-- C1 witness: the amended theorem applied to a concrete panel and a
concrete failed result. -/
theorem c1_refresh_failure_overwrites_cache_witness :
    ((refreshTablePanel (⟨0, fun _ => none⟩ : TablePanelState)
        (.raised (("x").toList)) none (some parseTable)).tabContents 0
      = some ⟨[], [], ("Error: ").toList ++ ("x").toList⟩) ∧
    ((refreshTablePanel (⟨0, fun _ => none⟩ : TablePanelState)
        (.ran { stdout := [], stderr := [], exitCode := some 1,
                status := RStatus.failed, endFinalized := true })
        none (some parseTable)).tabContents 0
      = some (parseTable (("No output").toList))) :=
  c1_refresh_failure_overwrites_cache (⟨0, fun _ => none⟩ : TablePanelState)
    (("x").toList)
    { stdout := [], stderr := [], exitCode := some 1,
      status := RStatus.failed, endFinalized := true } rfl rfl

/-- C2: the claim (and the docstrings of `CommandRunner` at runner.py
lines 148-153 and 190-192) says priority-flagged waiters are served before
queued normal-priority waiters when the gate frees.  The code never reads
the `priority` argument, so releasing the gate with queue
`[normal1, priority1, normal2]` hands it to `normal1` — whose priority flag
is `false` — while `priority1` keeps waiting. -/
theorem c2_priority_flag_ignored :
    gateRelease
        ⟨some ⟨("holder").toList, false⟩,
          [⟨("normal1").toList, false⟩, ⟨("priority1").toList, true⟩,
           ⟨("normal2").toList, false⟩]⟩
      = ⟨some ⟨("normal1").toList, false⟩,
          [⟨("priority1").toList, true⟩, ⟨("normal2").toList, false⟩]⟩ ∧
    (⟨("normal1").toList, false⟩ : Waiter).priority = false ∧
    (⟨("priority1").toList, true⟩ : Waiter).priority = true :=
  ⟨rfl, rfl, rfl⟩

/-- C3, counterexample: on the input `"  hello  "` — which contains no line
made of only whitespace and dashes — `parse_table` returns the raw,
untrimmed input as footer, not the trimmed input the claim demands. -/
theorem c3_footer_not_trimmed_cex :
    (∀ l ∈ pySplitlines (("  hello  ").toList), isSepLine l = false) ∧
    (parseTable (("  hello  ").toList)).footer ≠ pyStrip (("  hello  ").toList) ∧
    parseTable (("  hello  ").toList) = ⟨[], [], ("  hello  ").toList⟩ := by
  refine ⟨by decide, by decide, by decide⟩

/-- C3, amended: for every input string containing no line made up solely of
whitespace and dash characters, `parse_table` returns empty headers and rows
and a footer equal to the raw input string itself (the empty string when the
input strips to nothing). -/
theorem c3_no_separator_raw_footer (s : PyStr)
    (h : ∀ l ∈ pySplitlines s, isSepLine l = false) :
    parseTable s = ⟨[], [], if pyStrip s = [] then [] else s⟩ :=
  parseTable_no_sep_core h

/-- C3 witness: the amended theorem applied to a concrete two-line input
with no separator line. -/
theorem c3_no_separator_raw_footer_witness :
    (∀ l ∈ pySplitlines (("plain one\nplain two").toList),
      isSepLine l = false) ∧
    parseTable (("plain one\nplain two").toList)
      = ⟨[], [], ("plain one\nplain two").toList⟩ := by
  refine ⟨by decide, ?_⟩
  have h := c3_no_separator_raw_footer (("plain one\nplain two").toList) (by decide)
  rw [h]
  decide

/-- C4, counterexample: the claim says every footer-mode line starting with
a recognized report-prefix token — `Total` included — is excluded from the
returned footer.  On a concrete table whose only post-separator line is
`"Total results: 5"`, that line triggers footer mode (it starts with
`Total`) yet is returned as the footer verbatim, because the footer filter
at parsers.py line 69 drops only `Report|Info|Warning|Error|Debug|Critical`
prefixes. -/
theorem c4_total_kept_in_footer_cex :
    (parseTable (("A  B\n--\nTotal results: 5").toList)).footer
      = ("Total results: 5").toList ∧
    tableFooterStart (pyStrip (("Total results: 5").toList)) = true := by
  exact ⟨by decide, by decide⟩

/-- C4, amended: in parse_table's post-separator loop, once a line triggers
footer mode (blank, or starting with one of `Total`, `Report:`, `Info:`,
`Warning:`, `Error:`, `Success:`, `Critical:`, `Debug:`), no subsequent line
is ever added to rows; and every line of the returned footer avoids the
footer filter's prefixes `Report:`, `Info:`, `Warning:`, `Error:`,
`Debug:`, `Critical:` — `Total`- and `Success:`-prefixed lines are kept. -/
theorem c4_footer_mode_monotone (pre : List PyStr) (l : PyStr)
    (post : List PyStr) :
    ((pyStrip l = [] ∨ tableFooterStart (pyStrip l) = true) →
      ((pre ++ l :: post).foldl tableStep ⟨[], [], false⟩).rows
        = (pre.foldl tableStep ⟨[], [], false⟩).rows) ∧
    (∀ fl ∈ ((pre ++ l :: post).foldl tableStep ⟨[], [], false⟩).footerLines,
      tableFooterDrop fl = false) := by
  constructor
  · intro htrig
    rw [List.foldl_append]
    simp only [List.foldl_cons]
    obtain ⟨h1, h2⟩ :=
      tableStep_trigger (s := pre.foldl tableStep ⟨[], [], false⟩) htrig
    obtain ⟨h3, -⟩ := foldl_tableStep_inFooter post h2
    rw [h3, h1]
  · exact foldl_footerLines_drop _ (by simp)

/-- C4 witness: the amended theorem applied to a concrete line list where
the middle line triggers footer mode via its `Total` prefix. -/
theorem c4_footer_mode_monotone_witness :
    (([("a  b").toList] ++ ("Total results: 5").toList :: [("c  d").toList]).foldl
        tableStep ⟨[], [], false⟩).rows
      = ([("a  b").toList].foldl tableStep ⟨[], [], false⟩).rows :=
  (c4_footer_mode_monotone [("a  b").toList] (("Total results: 5").toList)
    [("c  d").toList]).1 (Or.inr (by decide))

/-- C5, counterexample: the claim says every command function whose
invocation raises a non-cancellation fault gets the fault's kind, message
and full traceback appended to stderr.  For a plain Python function command
raising `ValueError("boom")`, the outer handler at runner.py lines 258-261
records only `str(e)`: stderr is exactly `"boom"`, containing neither the
kind `ValueError` nor the traceback. -/
theorem c5_pyfn_fault_stderr_cex :
    ((runCommandPyFn (.raises (("ValueError").toList) (("boom").toList)
        (("Traceback (most recent call last):").toList)) true).1.status
      = RStatus.failed) ∧
    ((runCommandPyFn (.raises (("ValueError").toList) (("boom").toList)
        (("Traceback (most recent call last):").toList)) true).1.stderr
      = ("boom").toList) ∧
    (containsSeq
        ((runCommandPyFn (.raises (("ValueError").toList) (("boom").toList)
          (("Traceback (most recent call last):").toList)) true).1.stderr)
        (("ValueError").toList) = false) ∧
    (containsSeq
        ((runCommandPyFn (.raises (("ValueError").toList) (("boom").toList)
          (("Traceback (most recent call last):").toList)) true).1.stderr)
        (("Traceback").toList) = false) := by
  refine ⟨rfl, rfl, by decide, by decide⟩

/-- C5, amended: run_command always returns a result on a non-cancellation
fault, with a terminal failed status; for Click-command invocations the
fault's kind, message and full traceback are appended to stderr as
`"kind: msg\n\ntb"`, while for plain-Python-function invocations only the
fault's message is recorded in stderr. -/
theorem c5_fault_capture (so se k m tb : PyStr) (wcb : Bool) :
    (((runCommandClick (.raises so se k m tb) wcb).1.status = RStatus.failed) ∧
     ((runCommandClick (.raises so se k m tb) wcb).1.exitCode = some 1) ∧
     (∃ pre, (runCommandClick (.raises so se k m tb) wcb).1.stderr
        = pre ++ excBlock k m tb)) ∧
    (∀ k2 m2 tb2 : PyStr,
      (runCommandPyFn (.raises k2 m2 tb2) wcb).1.status = RStatus.failed ∧
      (runCommandPyFn (.raises k2 m2 tb2) wcb).1.stderr = m2) := by
  constructor
  · refine ⟨?_, ?_, ?_⟩
    · by_cases hse : se = [] <;>
        simp [runCommandClick, clickInvoke, hse]
    · by_cases hse : se = [] <;>
        simp [runCommandClick, clickInvoke, hse]
    · by_cases hse : se = []
      · exact ⟨[], by simp [runCommandClick, clickInvoke, hse]⟩
      · exact ⟨se ++ ("\n\n").toList,
          by simp [runCommandClick, clickInvoke, hse, List.append_assoc]⟩
  · intro k2 m2 tb2
    exact ⟨rfl, rfl⟩

/-- C6, counterexample: the claim orders the events as gate release, then
result finalization, then callback.  On a concrete successful invocation
with a registered callback the trace is acquire, run, finalize, callback,
release — the gate release does not precede the result finalization. -/
theorem c6_release_not_first_cex :
    ((runCommandClick (.ok (("out").toList) [] 0) true).2
      = [RunEvent.gateAcquired, RunEvent.workerRun, RunEvent.resultFinalized,
         RunEvent.callbackInvoked, RunEvent.gateReleased]) ∧
    ¬ (idxOfEv ((runCommandClick (.ok (("out").toList) [] 0) true).2)
          RunEvent.gateReleased
        < idxOfEv ((runCommandClick (.ok (("out").toList) [] 0) true).2)
          RunEvent.resultFinalized) := by
  exact ⟨rfl, by decide⟩

/-- C6, amended: for every invocation through run_command with a registered
completion callback, the CommandResult's end time and terminal status are
finalized first, then the callback is invoked, and the execution gate is
released last — after the callback, not before the finalization. -/
theorem c6_finalize_callback_release_order (o : ClickOutcome) (o2 : PyFnOutcome) :
    (idxOfEv ((runCommandClick o true).2) RunEvent.resultFinalized
        < idxOfEv ((runCommandClick o true).2) RunEvent.callbackInvoked ∧
     idxOfEv ((runCommandClick o true).2) RunEvent.callbackInvoked
        < idxOfEv ((runCommandClick o true).2) RunEvent.gateReleased) ∧
    (idxOfEv ((runCommandPyFn o2 true).2) RunEvent.resultFinalized
        < idxOfEv ((runCommandPyFn o2 true).2) RunEvent.callbackInvoked ∧
     idxOfEv ((runCommandPyFn o2 true).2) RunEvent.callbackInvoked
        < idxOfEv ((runCommandPyFn o2 true).2) RunEvent.gateReleased) := by
  have ht : (runCommandClick o true).2 = runTrace true := by cases o <;> rfl
  have ht2 : (runCommandPyFn o2 true).2 = runTrace true := by cases o2 <;> rfl
  rw [ht, ht2]
  exact ⟨⟨by decide, by decide⟩, ⟨by decide, by decide⟩⟩

/-- C7: for every header list and row handed to TablePanel.update_content,
the rendered row has exactly as many cells as there are headers: a short row
is right-padded with empty strings, a long row is truncated. -/
theorem c7_row_padding (headers row : List PyStr) :
    (padRow headers row).length = headers.length ∧
    padRow headers row =
      row.take headers.length
        ++ List.replicate (headers.length - row.length) [] := by
  unfold padRow
  rcases lt_trichotomy row.length headers.length with h | h | h
  · rw [if_pos h]
    constructor
    · rw [List.length_append, List.length_replicate]; omega
    · rw [List.take_of_length_le (le_of_lt h)]
  · rw [if_neg (by omega), if_neg (by omega)]
    have h0 : headers.length - row.length = 0 := by omega
    rw [h0]
    constructor
    · exact h.symm ▸ rfl
    · rw [List.take_of_length_le (le_of_eq h)]
      simp
  · rw [if_neg (by omega), if_pos h]
    have h0 : headers.length - row.length = 0 := by omega
    rw [h0]
    constructor
    · rw [List.length_take]; omega
    · simp

/-- C8: for every input consisting only of whitespace (the empty string
included), parse_table returns empty headers, empty rows and an empty
footer, the same as for empty input. -/
theorem c8_ws_only_input (s : PyStr) (h : s.all wsChar = true) :
    parseTable s = ⟨[], [], []⟩ :=
  parseTable_ws_only h

/-- C8 witness: the theorem applied to a concrete whitespace-only input. -/
theorem c8_ws_only_input_witness :
    (("  \n \t\n").toList.all wsChar = true) ∧
    parseTable (("  \n \t\n").toList) = ⟨[], [], []⟩ :=
  ⟨by decide, c8_ws_only_input (("  \n \t\n").toList) (by decide)⟩

/-- C9: for every input string, every row of parse_computer_list has exactly
one cell and the footer is always empty; and every non-blank input line that
is not report-prefixed and does not start with the bullet marker is kept
verbatim (stripped) as a single-cell row. -/
theorem c9_computer_list_shape (s : PyStr) :
    (parseComputerList s).headers = [("label").toList] ∧
    (parseComputerList s).footer = [] ∧
    (∀ r ∈ (parseComputerList s).rows, r.length = 1) ∧
    (∀ l ∈ pySplitlines s, pyStrip l ≠ [] →
      computerSkip (pyStrip l) = false →
      pyStartsWith ('*' :: [' ']) (pyStrip l) = false →
      [pyStrip l] ∈ (parseComputerList s).rows) := by
  refine ⟨rfl, rfl, ?_, ?_⟩
  · intro r hr
    obtain ⟨l, hl, he⟩ := List.mem_filterMap.mp hr
    simp only [computerRow] at he
    split at he
    · exact absurd he (by simp)
    · split at he
      · injection he with he2
        rw [← he2]
        rfl
      · injection he with he2
        rw [← he2]
        rfl
  · intro l hl hne hskip hbul
    rcases stripCounterpart_strip s l hl with h | ⟨l2, hl2, he⟩
    · exact absurd h hne
    · refine List.mem_filterMap.mpr ⟨l2, hl2, ?_⟩
      simp only [computerRow]
      rw [he]
      have hie : (pyStrip l).isEmpty = false := by
        cases hx : pyStrip l with
        | nil => exact absurd hx hne
        | cons a b => rfl
      simp [hie, hskip, hbul]

/-- C9 witness: the theorem applied to a concrete input where a non-bullet,
non-report line is kept verbatim as a single-cell row. -/
theorem c9_computer_list_shape_witness :
    (parseComputerList (("* pc\nplainline").toList)).footer = [] ∧
    [pyStrip (("plainline").toList)]
      ∈ (parseComputerList (("* pc\nplainline").toList)).rows :=
  ⟨(c9_computer_list_shape (("* pc\nplainline").toList)).2.1,
    (c9_computer_list_shape (("* pc\nplainline").toList)).2.2.2
      (("plainline").toList) (by decide) (by decide) (by decide) (by decide)⟩

/-- C10: every message line added to the results panel by
ResultsPanel.write — whatever the dedupe flag — is non-blank, is not a
whitespace-and-dash separator, does not start (after stripping) with a
report-prefix token, and does not start with the command echo marker
`$ verdi`. -/
theorem c10_results_filter (st : ResultsPanelState) (text : PyStr)
    (dedupe : Bool) (l : PyStr)
    (hl : l ∈ (resultsWrite st text dedupe).messages) :
    l ∈ st.messages ∨
      (pyStrip l ≠ [] ∧ isSepLine (pyStrip l) = false ∧
       resultsReportLine (pyStrip l) = false ∧
       pyStartsWith (("$ verdi").toList) (pyStrip l) = false) := by
  simp only [resultsWrite] at hl
  by_cases hd : (dedupe && isDuplicateError st.seenErrors
      (pyLower (pyStrip text))) = true
  · rw [if_pos hd] at hl
    exact Or.inl hl
  · rw [if_neg hd] at hl
    simp only [filterContentLines] at hl
    rcases List.mem_append.mp hl with hm | hm
    · exact Or.inl hm
    · right
      obtain ⟨line, hline, he⟩ := List.mem_filterMap.mp hm
      obtain ⟨hval, h1, h2, h3, h4⟩ := filterContentLine_sound he
      subst hval
      rw [pyStrip_pyRstrip]
      refine ⟨?_, h2, h3, h4⟩
      intro hcontra
      rw [hcontra] at h1
      exact absurd h1 (by simp)

/-- C10 witness: the theorem applied to a concrete write whose kept line is
`keep me`, with blank, report and command-echo lines dropped. -/
theorem c10_results_filter_witness :
    (("keep me").toList
      ∈ (resultsWrite ⟨[], []⟩
          (("keep me\nReport: drop\n\n$ verdi drop").toList) true).messages) ∧
    ((("keep me").toList ∈ ([] : List PyStr)) ∨
      (pyStrip (("keep me").toList) ≠ [] ∧
       isSepLine (pyStrip (("keep me").toList)) = false ∧
       resultsReportLine (pyStrip (("keep me").toList)) = false ∧
       pyStartsWith (("$ verdi").toList) (pyStrip (("keep me").toList)) = false)) :=
  ⟨by decide,
    c10_results_filter ⟨[], []⟩
      (("keep me\nReport: drop\n\n$ verdi drop").toList) true
      (("keep me").toList) (by decide)⟩

end LazyVerdi
